import Mathlib

/-!
Shallow embedding of the pinochle meld/bidding simulation
(`deck.py`, `config.py`, `hand_evaluator.py`, `pinochle_bidding_env.py`,
`pinochle_env.py`) together with proofs about the claims on its
specification.

Cards are Python strings such as `"9C"` or `"10S"`; here they are pairs of a
value and a suit.  `card[-1]` in the source is `Card.suit`, `card[:-1]` is
`Card.value`.
-/

/-- The four suits, in the order of `config.suits = ['C', 'D', 'H', 'S']`. -/
inductive Suit : Type
  | C | D | H | S
deriving DecidableEq, Repr, Fintype

/-- The six card values, in the order of
`config.values = ['9', '10', 'J', 'Q', 'K', 'A']`. -/
inductive Value : Type
  | v9 | v10 | vJ | vQ | vK | vA
deriving DecidableEq, Repr, Fintype

/-- A card, i.e. the Python string `value + suit`. -/
structure Card : Type where
  value : Value
  suit : Suit
deriving DecidableEq, Repr, Fintype

instance : Inhabited Card := ⟨⟨Value.v9, Suit.C⟩⟩

/-- `card_rank` from `pinochle_bidding_env.py`:
`order = {'9': 0, 'J': 1, 'Q': 2, 'K': 3, '10': 4, 'A': 5}`, looked up by the
string prefix of the card. -/
def cardRank (c : Card) : Nat :=
  match c.value with
  | Value.v9 => 0
  | Value.vJ => 1
  | Value.vQ => 2
  | Value.vK => 3
  | Value.v10 => 4
  | Value.vA => 5

/-- `c[:-1] in ['K', '10', 'A']`: the card scores one trick point. -/
def counterCard (c : Card) : Bool :=
  c.value == Value.vK || c.value == Value.v10 || c.value == Value.vA

/-- Numeric key realising Python's lexicographic comparison of the card
strings (`sorted(hand)` in the passing phase).  The first character orders the
values as `'1' < '9' < 'A' < 'J' < 'K' < 'Q'` (ASCII), i.e.
`10 < 9 < A < J < K < Q`, and ties are broken by the suit character
`'C' < 'D' < 'H' < 'S'`. -/
def pyStrKey (c : Card) : Nat :=
  (match c.value with
   | Value.v10 => 0
   | Value.v9 => 1
   | Value.vA => 2
   | Value.vJ => 3
   | Value.vK => 4
   | Value.vQ => 5) * 4 +
  (match c.suit with
   | Suit.C => 0
   | Suit.D => 1
   | Suit.H => 2
   | Suit.S => 3)

/-- Python `sorted(hand)` (ascending lexicographic on the card strings,
stable). -/
def pySorted (l : List Card) : List Card :=
  l.mergeSort (fun a b => pyStrKey a ≤ pyStrKey b)

/-- Python `hand.sort(key=card_rank)` (stable ascending sort by rank). -/
def rankSorted (l : List Card) : List Card :=
  l.mergeSort (fun a b => cardRank a ≤ cardRank b)

/-- Python `min(l, key=f)`: the first element of `l` attaining the minimal
key.  On an empty list Python raises; the default `d` models that unreachable
case. -/
def pyMinBy {α : Type} (f : α → Nat) (d : α) : List α → α
  | [] => d
  | c :: cs => cs.foldl (fun b x => if f x < f b then x else b) c

/-- Python `max(l, key=f)`: the first element of `l` attaining the maximal
key. -/
def pyMaxBy {α : Type} (f : α → Nat) (d : α) : List α → α
  | [] => d
  | c :: cs => cs.foldl (fun b x => if f b < f x then x else b) c

theorem pyMinBy_foldl_mem {α : Type} (f : α → Nat) :
    ∀ (cs : List α) (b : α), cs.foldl (fun b x => if f x < f b then x else b) b ∈ b :: cs := by
  intro cs
  induction cs with
  | nil => intro b; simp
  | cons c cs ih =>
    intro b
    simp only [List.foldl_cons]
    by_cases hc : f c < f b
    · rw [if_pos hc]
      exact List.mem_cons_of_mem b (ih c)
    · rw [if_neg hc]
      rcases List.mem_cons.mp (ih b) with h | h
      · rw [h]; exact List.mem_cons_self _ _
      · exact List.mem_cons_of_mem b (List.mem_cons_of_mem c h)

theorem pyMinBy_foldl_le {α : Type} (f : α → Nat) :
    ∀ (cs : List α) (b : α),
      f (cs.foldl (fun b x => if f x < f b then x else b) b) ≤ f b ∧
      ∀ x ∈ cs, f (cs.foldl (fun b x => if f x < f b then x else b) b) ≤ f x := by
  intro cs
  induction cs with
  | nil => intro b; simp
  | cons c cs ih =>
    intro b
    simp only [List.foldl_cons]
    by_cases hc : f c < f b
    · rw [if_pos hc]
      refine ⟨le_trans (ih c).1 (le_of_lt hc), ?_⟩
      intro x hx
      rcases List.mem_cons.mp hx with h1 | h1
      · rw [h1]; exact (ih c).1
      · exact (ih c).2 x h1
    · rw [if_neg hc]
      refine ⟨(ih b).1, ?_⟩
      intro x hx
      rcases List.mem_cons.mp hx with h1 | h1
      · rw [h1]; exact le_trans (ih b).1 (by omega)
      · exact (ih b).2 x h1

theorem pyMinBy_mem {α : Type} (f : α → Nat) (d : α) {l : List α} (h : l ≠ []) :
    pyMinBy f d l ∈ l := by
  cases l with
  | nil => exact absurd rfl h
  | cons c cs => exact pyMinBy_foldl_mem f cs c

theorem pyMinBy_le {α : Type} (f : α → Nat) (d : α) {l : List α} (h : l ≠ []) :
    ∀ x ∈ l, f (pyMinBy f d l) ≤ f x := by
  cases l with
  | nil => exact absurd rfl h
  | cons c cs =>
    intro x hx
    rcases List.mem_cons.mp hx with h1 | h1
    · subst h1; exact (pyMinBy_foldl_le f cs x).1
    · exact (pyMinBy_foldl_le f cs c).2 x h1

theorem pyMaxBy_foldl_mem {α : Type} (f : α → Nat) :
    ∀ (cs : List α) (b : α), cs.foldl (fun b x => if f b < f x then x else b) b ∈ b :: cs := by
  intro cs
  induction cs with
  | nil => intro b; simp
  | cons c cs ih =>
    intro b
    simp only [List.foldl_cons]
    by_cases hc : f b < f c
    · rw [if_pos hc]
      exact List.mem_cons_of_mem b (ih c)
    · rw [if_neg hc]
      rcases List.mem_cons.mp (ih b) with h | h
      · rw [h]; exact List.mem_cons_self _ _
      · exact List.mem_cons_of_mem b (List.mem_cons_of_mem c h)

theorem pyMaxBy_foldl_ge {α : Type} (f : α → Nat) :
    ∀ (cs : List α) (b : α),
      f b ≤ f (cs.foldl (fun b x => if f b < f x then x else b) b) ∧
      ∀ x ∈ cs, f x ≤ f (cs.foldl (fun b x => if f b < f x then x else b) b) := by
  intro cs
  induction cs with
  | nil => intro b; simp
  | cons c cs ih =>
    intro b
    simp only [List.foldl_cons]
    by_cases hc : f b < f c
    · rw [if_pos hc]
      refine ⟨le_trans (le_of_lt hc) (ih c).1, ?_⟩
      intro x hx
      rcases List.mem_cons.mp hx with h1 | h1
      · rw [h1]; exact (ih c).1
      · exact (ih c).2 x h1
    · rw [if_neg hc]
      refine ⟨(ih b).1, ?_⟩
      intro x hx
      rcases List.mem_cons.mp hx with h1 | h1
      · rw [h1]; exact le_trans (by omega) (ih b).1
      · exact (ih b).2 x h1

theorem pyMaxBy_mem {α : Type} (f : α → Nat) (d : α) {l : List α} (h : l ≠ []) :
    pyMaxBy f d l ∈ l := by
  cases l with
  | nil => exact absurd rfl h
  | cons c cs => exact pyMaxBy_foldl_mem f cs c

theorem pyMaxBy_ge {α : Type} (f : α → Nat) (d : α) {l : List α} (h : l ≠ []) :
    ∀ x ∈ l, f x ≤ f (pyMaxBy f d l) := by
  cases l with
  | nil => exact absurd rfl h
  | cons c cs =>
    intro x hx
    rcases List.mem_cons.mp hx with h1 | h1
    · subst h1; exact (pyMaxBy_foldl_ge f cs x).1
    · exact (pyMaxBy_foldl_ge f cs c).2 x h1

/-! ## Deck model (`deck.py`, `config.py`) -/

/-- `config.values = ['9', '10', 'J', 'Q', 'K', 'A']`. -/
def configValues : List Value :=
  [Value.v9, Value.v10, Value.vJ, Value.vQ, Value.vK, Value.vA]

/-- `config.suits = ['C', 'D', 'H', 'S']`. -/
def configSuits : List Suit := [Suit.C, Suit.D, Suit.H, Suit.S]

/-- `[value + suit for value in config.values for suit in config.suits]`. -/
def deckBase : List Card :=
  configValues.flatMap (fun v => configSuits.map (fun s => ⟨v, s⟩))

/-- The full deck of `Deck.__init__`: the 24 distinct cards repeated
`config.occurrences = 2` times (`self.cards *= config.occurrences`). -/
def fullDeck : List Card := deckBase ++ deckBase

/-- The cards of `l` at positions congruent to `j` modulo `n` (for `j < n`):
the hand of player `j` produced by the round-robin loop
`results[index % numPlayers].append(card)` of `Deck.deal`.  The second
argument counts down the positions remaining until this player's next card. -/
def pick : List Card → Nat → Nat → List Card
  | [], _, _ => []
  | c :: cs, 0, n => c :: pick cs (n - 1) n
  | _ :: cs, j + 1, n => pick cs j n

/-- `Deck.deal(numPlayers)`: round-robin partition of the deck into
`numPlayers` hands. -/
def deal (cards : List Card) (numPlayers : Nat) : List (List Card) :=
  (List.range numPlayers).map (fun j => pick cards j numPlayers)

/-- Length recursion of `pick`, as a function of the deck length only. -/
def pickLen : Nat → Nat → Nat → Nat
  | 0, _, _ => 0
  | l + 1, 0, n => pickLen l (n - 1) n + 1
  | l + 1, j + 1, n => pickLen l j n

theorem length_pick : ∀ (l : List Card) (j n : Nat), (pick l j n).length = pickLen l.length j n := by
  intro l
  induction l with
  | nil => intro j n; cases j <;> rfl
  | cons c cs ih =>
    intro j n
    cases j with
    | zero => simp [pick, pickLen, ih]
    | succ j => simp [pick, pickLen, ih]

/-- The multiset union of the round-robin hands is the dealt deck:
no card is duplicated or dropped by `Deck.deal`. -/
theorem pick_union : ∀ (l : List Card) (n : Nat), 0 < n →
    (((List.range n).map (fun j => (pick l j n : Multiset Card))).sum : Multiset Card) =
      (l : Multiset Card) := by
  intro l
  induction l with
  | nil =>
    intro n _
    rw [List.sum_eq_zero]
    · rfl
    · intro x hx
      rcases List.mem_map.mp hx with ⟨j, _, hj⟩
      rw [← hj]
      cases j <;> rfl
  | cons c cs ih =>
    intro n hn
    obtain ⟨m, rfl⟩ : ∃ m, n = m + 1 := ⟨n - 1, by omega⟩
    have hrange : List.range (m + 1) = 0 :: (List.range m).map Nat.succ :=
      List.range_succ_eq_map m
    rw [hrange]
    simp only [List.map_cons, List.sum_cons, List.map_map]
    have hshift :
        ((List.range m).map ((fun j => (pick (c :: cs) j (m + 1) : Multiset Card)) ∘ Nat.succ)) =
          (List.range m).map (fun j => (pick cs j (m + 1) : Multiset Card)) := by
      apply List.map_congr_left
      intro j _
      rfl
    rw [hshift]
    have hcs : ((List.range (m + 1)).map (fun j => (pick cs j (m + 1) : Multiset Card))).sum =
        (cs : Multiset Card) := ih (m + 1) (by omega)
    rw [List.range_succ, List.map_append, List.sum_append] at hcs
    simp only [List.map_cons, List.sum_cons, List.map_nil, List.sum_nil, add_zero] at hcs
    show (↑(c :: pick cs (m + 1 - 1) (m + 1)) : Multiset Card) + _ = _
    simp only [Nat.add_sub_cancel]
    rw [← Multiset.cons_coe, Multiset.cons_add, add_comm]
    rw [hcs]
    rfl

/-! ## Card abbreviations for concrete literals -/

abbrev c9C : Card := ⟨Value.v9, Suit.C⟩
abbrev c9D : Card := ⟨Value.v9, Suit.D⟩
abbrev c9H : Card := ⟨Value.v9, Suit.H⟩
abbrev c9S : Card := ⟨Value.v9, Suit.S⟩
abbrev c10C : Card := ⟨Value.v10, Suit.C⟩
abbrev c10D : Card := ⟨Value.v10, Suit.D⟩
abbrev c10H : Card := ⟨Value.v10, Suit.H⟩
abbrev c10S : Card := ⟨Value.v10, Suit.S⟩
abbrev cJC : Card := ⟨Value.vJ, Suit.C⟩
abbrev cJD : Card := ⟨Value.vJ, Suit.D⟩
abbrev cJH : Card := ⟨Value.vJ, Suit.H⟩
abbrev cJS : Card := ⟨Value.vJ, Suit.S⟩
abbrev cQC : Card := ⟨Value.vQ, Suit.C⟩
abbrev cQD : Card := ⟨Value.vQ, Suit.D⟩
abbrev cQH : Card := ⟨Value.vQ, Suit.H⟩
abbrev cQS : Card := ⟨Value.vQ, Suit.S⟩
abbrev cKC : Card := ⟨Value.vK, Suit.C⟩
abbrev cKD : Card := ⟨Value.vK, Suit.D⟩
abbrev cKH : Card := ⟨Value.vK, Suit.H⟩
abbrev cKS : Card := ⟨Value.vK, Suit.S⟩
abbrev cAC : Card := ⟨Value.vA, Suit.C⟩
abbrev cAD : Card := ⟨Value.vA, Suit.D⟩
abbrev cAH : Card := ⟨Value.vA, Suit.H⟩
abbrev cAS : Card := ⟨Value.vA, Suit.S⟩

/-! ## Meld evaluator (`config.meldHands`, `hand_evaluator.evaluate`) -/

/-- One entry of `config.meldHands`:
`([card list], points, occurrences required for each card)`. -/
structure MeldPattern : Type where
  cards : List Card
  points : Nat
  occurrences : Nat
deriving DecidableEq, Repr

/-- `config.meldHands`, in the order written in `config.py`. -/
def meldHands : List MeldPattern :=
  [⟨[cAC, cAD, cAH, cAS], 10, 1⟩,      -- Round Of Aces
   ⟨[cKC, cKD, cKH, cKS], 8, 1⟩,       -- Round Of Kings
   ⟨[cQC, cQD, cQH, cQS], 6, 1⟩,       -- Round Of Queens
   ⟨[cJC, cJD, cJH, cJS], 4, 1⟩,       -- Round Of Jacks
   ⟨[cAC, cAD, cAH, cAS], 90, 2⟩,      -- All Aces
   ⟨[cKC, cKD, cKH, cKS], 72, 2⟩,      -- All Kings
   ⟨[cQC, cQD, cQH, cQS], 54, 2⟩,      -- All Queens
   ⟨[cJC, cJD, cJH, cJS], 36, 2⟩,      -- All Jacks
   ⟨[cKC, cQC], 2, 1⟩,                 -- Marriage Clubs
   ⟨[cKC, cQC], 2, 2⟩,                 -- Double Marriage Clubs
   ⟨[cKD, cQD], 2, 1⟩,                 -- Marriage Diamonds
   ⟨[cKD, cQD], 2, 2⟩,                 -- Double Marriage Diamonds
   ⟨[cKH, cQH], 2, 1⟩,                 -- Marriage Hearts
   ⟨[cKH, cQH], 2, 2⟩,                 -- Double Marriage Hearts
   ⟨[cKS, cQS], 2, 1⟩,                 -- Marriage Spades
   ⟨[cKS, cQS], 2, 2⟩,                 -- Double Marriage Spades
   ⟨[cJC, cQC, cKC, c10C, cAC], 13, 1⟩,  -- Run in Clubs
   ⟨[cJD, cQD, cKD, c10D, cAD], 13, 1⟩,  -- Run in Diamonds
   ⟨[cJH, cQH, cKH, c10H, cAH], 13, 1⟩,  -- Run in Hearts
   ⟨[cJS, cQS, cKS, c10S, cAS], 13, 1⟩,  -- Run in Spades
   ⟨[cJC, cQC, cKC, c10C, cAC], 133, 2⟩, -- Double Run in Clubs
   ⟨[cJD, cQD, cKD, c10D, cAD], 133, 2⟩, -- Double Run in Diamonds
   ⟨[cJH, cQH, cKH, c10H, cAH], 133, 2⟩, -- Double Run in Hearts
   ⟨[cJS, cQS, cKS, c10S, cAS], 133, 2⟩, -- Double Run in Spades
   ⟨[cQS, cJD], 4, 1⟩,                 -- Pinochle
   ⟨[cQS, cJD], 26, 2⟩]                -- Double Pinochle

/-- `hand_evaluator.evaluate`: accumulate, over every configured meld pattern,
its points when `all(hand.count(card) >= occurrences for card in cards)`. -/
def evaluate (hand : List Card) : Nat :=
  meldHands.foldl
    (fun points p =>
      if p.cards.all (fun c => decide (p.occurrences ≤ hand.count c)) then points + p.points
      else points)
    0

/-- The per-pattern contribution of `p` to the meld score of `hand`. -/
def meldTerm (hand : List Card) (p : MeldPattern) : Nat :=
  if ∀ c ∈ p.cards, p.occurrences ≤ hand.count c then p.points else 0

/-- The independent-sum reading of the meld evaluator: every configured
pattern contributes its points exactly when the hand holds each of its cards
with the required multiplicity, with no mutual exclusion between patterns. -/
def meldSum (hand : List Card) : Nat := (meldHands.map (meldTerm hand)).sum

theorem evaluate_foldl_eq (hand : List Card) :
    ∀ (ps : List MeldPattern) (acc : Nat),
      ps.foldl
        (fun points p =>
          if p.cards.all (fun c => decide (p.occurrences ≤ hand.count c)) then points + p.points
          else points)
        acc = acc + (ps.map (meldTerm hand)).sum := by
  intro ps
  induction ps with
  | nil => intro acc; simp
  | cons p ps ih =>
    intro acc
    simp only [List.foldl_cons, List.map_cons, List.sum_cons, ih]
    have hcond : (p.cards.all (fun c => decide (p.occurrences ≤ hand.count c)) = true) ↔
        (∀ c ∈ p.cards, p.occurrences ≤ hand.count c) := by
      simp [List.all_eq_true]
    by_cases h : ∀ c ∈ p.cards, p.occurrences ≤ hand.count c
    · rw [if_pos (hcond.mpr h), meldTerm, if_pos h]
      omega
    · rw [if_neg (fun hb => h (hcond.mp hb)), meldTerm, if_neg h]
      omega

/-- `evaluate` is the independent sum of the pattern contributions. -/
theorem evaluate_eq_meldSum (hand : List Card) : evaluate hand = meldSum hand := by
  unfold evaluate meldSum
  rw [evaluate_foldl_eq hand meldHands 0, Nat.zero_add]

/-! ## Passing exchange (`PinochleBiddingEnv.step`, passing phase) -/

theorem getD_sublist_one (d : Card) :
    ∀ (l : List Card) (i : Nat), i < l.length → [l.getD i d].Sublist l := by
  intro l
  induction l with
  | nil => intro i h; simp at h
  | cons c cs ih =>
    intro i h
    cases i with
    | zero => simp
    | succ i =>
      rw [List.getD_cons_succ]
      exact (ih i (by simpa using h)).cons c

theorem getD_sublist_two (d : Card) :
    ∀ (l : List Card) (i j : Nat), i < j → j < l.length →
      [l.getD i d, l.getD j d].Sublist l := by
  intro l
  induction l with
  | nil => intro i j _ h; simp at h
  | cons c cs ih =>
    intro i j hij hj
    cases i with
    | zero =>
      obtain ⟨j', rfl⟩ : ∃ j', j = j' + 1 := ⟨j - 1, by omega⟩
      rw [List.getD_cons_zero, List.getD_cons_succ]
      exact (getD_sublist_one d cs j' (by simpa using hj)).cons₂ c
    | succ i =>
      obtain ⟨j', rfl⟩ : ∃ j', j = j' + 1 := ⟨j - 1, by omega⟩
      rw [List.getD_cons_succ, List.getD_cons_succ]
      exact (ih i j' (by omega) (by simpa using hj)).cons c

theorem getD_sublist_three (d : Card) :
    ∀ (l : List Card) (i j k : Nat), i < j → j < k → k < l.length →
      [l.getD i d, l.getD j d, l.getD k d].Sublist l := by
  intro l
  induction l with
  | nil => intro i j k _ _ h; simp at h
  | cons c cs ih =>
    intro i j k hij hjk hk
    cases i with
    | zero =>
      obtain ⟨j', rfl⟩ : ∃ j', j = j' + 1 := ⟨j - 1, by omega⟩
      obtain ⟨k', rfl⟩ : ∃ k', k = k' + 1 := ⟨k - 1, by omega⟩
      rw [List.getD_cons_zero, List.getD_cons_succ, List.getD_cons_succ]
      exact (getD_sublist_two d cs j' k' (by omega) (by simpa using hk)).cons₂ c
    | succ i =>
      obtain ⟨j', rfl⟩ : ∃ j', j = j' + 1 := ⟨j - 1, by omega⟩
      obtain ⟨k', rfl⟩ : ∃ k', k = k' + 1 := ⟨k - 1, by omega⟩
      rw [List.getD_cons_succ, List.getD_cons_succ, List.getD_cons_succ]
      exact (ih i j' k' (by omega) (by omega) (by simpa using hk)).cons c

/-- The passing-phase exchange of `PinochleBiddingEnv.step`: the chosen
3-combination `(i, j, k)` (with `i < j < k`, from
`itertools.combinations(range(12), 3)`) indexes the *sorted* partner hand; the
selected cards are removed one by one from the partner's hand
(`self.hands[2].remove(card)`, modelled by `List.diff`) and appended to the
bidder's hand; the bidder's hand is then stably sorted by `card_rank` and its
first three cards are returned to the partner.  Returns the new
`(bidder, partner)` hands. -/
def passingExchange (bidder partner : List Card) (i j k : Nat) : List Card × List Card :=
  let partnerSorted := pySorted partner
  let passed := [partnerSorted.getD i default, partnerSorted.getD j default,
                 partnerSorted.getD k default]
  let partner1 := partner.diff passed
  let bidder1 := rankSorted (bidder ++ passed)
  let passedBack := bidder1.take 3
  let bidder2 := bidder1.drop 3
  (bidder2, partner1 ++ passedBack)

theorem passingExchange_spec (bidder partner : List Card) (i j k : Nat)
    (hb : bidder.length = 12) (hp : partner.length = 12)
    (hij : i < j) (hjk : j < k) (hk : k < 12) :
    (passingExchange bidder partner i j k).1.length = 12 ∧
    (passingExchange bidder partner i j k).2.length = 12 ∧
    ((passingExchange bidder partner i j k).1 : Multiset Card) +
      ((passingExchange bidder partner i j k).2 : Multiset Card) =
      (bidder : Multiset Card) + (partner : Multiset Card) := by
  have hperm : (pySorted partner).Perm partner := List.mergeSort_perm partner _
  have hlen : (pySorted partner).length = 12 := hperm.length_eq.trans hp
  set ps := pySorted partner with hps
  set passed : List Card := [ps.getD i default, ps.getD j default, ps.getD k default]
    with hpassed
  have hsub : passed.Sublist ps := getD_sublist_three default ps i j k hij hjk (hlen ▸ hk)
  have hlePs : (passed : Multiset Card) ≤ (ps : Multiset Card) :=
    Multiset.coe_le.mpr hsub.subperm
  have hcoePs : (ps : Multiset Card) = (partner : Multiset Card) :=
    Multiset.coe_eq_coe.mpr hperm
  have hleP : (passed : Multiset Card) ≤ (partner : Multiset Card) := hcoePs ▸ hlePs
  have hdiff : ((partner.diff passed : List Card) : Multiset Card) =
      (partner : Multiset Card) - (passed : Multiset Card) :=
    (Multiset.coe_sub partner passed).symm
  have hb1perm : (rankSorted (bidder ++ passed)).Perm (bidder ++ passed) :=
    List.mergeSort_perm _ _
  have hb1coe : ((rankSorted (bidder ++ passed) : List Card) : Multiset Card) =
      (bidder : Multiset Card) + (passed : Multiset Card) := by
    rw [Multiset.coe_eq_coe.mpr hb1perm, ← Multiset.coe_add]
  have hb1len : (rankSorted (bidder ++ passed)).length = 15 := by
    rw [hb1perm.length_eq, List.length_append, hb]
    rfl
  set bidder1 := rankSorted (bidder ++ passed) with hbidder1
  have hsplit : bidder1.take 3 ++ bidder1.drop 3 = bidder1 := List.take_append_drop 3 bidder1
  have hsplitcoe : ((bidder1.take 3 : List Card) : Multiset Card) +
      ((bidder1.drop 3 : List Card) : Multiset Card) =
      (bidder : Multiset Card) + (passed : Multiset Card) := by
    rw [← hb1coe, Multiset.coe_add]
    exact congrArg _ hsplit
  have hcard1 : ((partner.diff passed : List Card) : Multiset Card).card = 9 := by
    rw [hdiff, Multiset.card_sub hleP]
    simp [hpassed, hp]
  refine ⟨?_, ?_, ?_⟩
  · show (bidder1.drop 3).length = 12
    rw [List.length_drop, hb1len]
  · show (partner.diff passed ++ bidder1.take 3).length = 12
    have h9 : (partner.diff passed).length = 9 := by
      have := hcard1
      rwa [Multiset.coe_card] at this
    rw [List.length_append, h9, List.length_take, hb1len]
    rfl
  · show ((bidder1.drop 3 : List Card) : Multiset Card) +
      ((partner.diff passed ++ bidder1.take 3 : List Card) : Multiset Card) =
      (bidder : Multiset Card) + (partner : Multiset Card)
    rw [← Multiset.coe_add, hdiff]
    have rearrange : ∀ dr tk df : Multiset Card, dr + (df + tk) = tk + dr + df := by
      intro dr tk df
      abel
    rw [rearrange, hsplitcoe, add_assoc]
    have hcancel : (passed : Multiset Card) +
        ((partner : Multiset Card) - (passed : Multiset Card)) = (partner : Multiset Card) := by
      rw [add_comm]
      exact tsub_add_cancel_of_le hleP
    rw [hcancel]

/-! ## Bidding state machine (`PinochleBiddingEnv`, bidding phase) -/

/-- The mutable bidding state of `PinochleBiddingEnv`:
`current_bid`, `active`, `current_turn`, `bidding_history`. -/
structure BidState : Type where
  currentBid : Nat
  active : List Bool
  currentTurn : Nat
  history : List (Nat × Nat)
deriving DecidableEq, Repr

/-- `init_bidding`: opening bid 20, all four seats active, turn = seat 0. -/
def initBidding : BidState := ⟨20, [true, true, true, true], 0, []⟩

/-- The outcome of one call to `random.random() < 0.5` / `random.randint(...)`
for a non-ML seat: either the 50% pass or the sampled bid value. -/
inductive RandBid : Type
  | pass : RandBid
  | bid : Nat → RandBid
deriving DecidableEq, Repr

/-- The ML bidder's bid (seat 0) before it is recorded:
```
if action == 0: bid = 0
else:
    bid = action
    if bid <= self.current_bid: bid = self.current_bid + 1
    if self.current_bid < 30 and bid < 30: bid = max(30, self.current_bid + 1)
```
-/
def mlBid (currentBid action : Nat) : Nat :=
  if action = 0 then 0
  else
    let b1 := if action ≤ currentBid then currentBid + 1 else action
    if currentBid < 30 ∧ b1 < 30 then max 30 (currentBid + 1) else b1

/-- A non-ML seat's bid.  The teammate guard
(`current_turn == 2 and active[0] and active[2] and not active[1] and not
active[3]`) forces a pass; at `current_bid >= 50` the seat passes; otherwise
the random draw `rnd` decides (`bid = 0` or `random.randint(current_bid + 1, 50)`). -/
def nonMlBid (s : BidState) (rnd : RandBid) : Nat :=
  if s.currentTurn = 2 ∧ s.active.getD 0 false = true ∧ s.active.getD 2 false = true ∧
      (s.active.getD 1 false = false ∧ s.active.getD 3 false = false) then 0
  else if 50 ≤ s.currentBid then 0
  else
    match rnd with
    | RandBid.pass => 0
    | RandBid.bid n => n

/-- One bidding-phase transition of `PinochleBiddingEnv.step`: compute the
acting seat's bid, append it to the history, deactivate the seat on a pass or
record the bid as `current_bid` otherwise, and advance the turn round-robin. -/
def bidStep (s : BidState) (action : Nat) (rnd : RandBid) : BidState :=
  let bid := if s.currentTurn = 0 then mlBid s.currentBid action else nonMlBid s rnd
  let hist := s.history ++ [(s.currentTurn, bid)]
  if bid = 0 then
    ⟨s.currentBid, s.active.set s.currentTurn false, (s.currentTurn + 1) % 4, hist⟩
  else
    ⟨bid, s.active, (s.currentTurn + 1) % 4, hist⟩

/-- The data recorded when bidding terminates with one active seat. -/
structure WinInfo : Type where
  winner : Nat
  winningBid : Nat
  teamML : Bool
deriving DecidableEq, Repr

/-- The `sum(self.active) == 1` termination check of the bidding phase:
`winner = self.active.index(True)`, `self.winning_bid = 20` (forced), and
the winning team is ML iff the winner is seat 0 or seat 2. -/
def checkBidTermination (s : BidState) : Option WinInfo :=
  if s.active.count true = 1 then
    let w := s.active.indexOf true
    some ⟨w, 20, w == 0 || w == 2⟩
  else none

/-- The `all players passed` redeal check: at least four history entries and
the last four bids are all 0. -/
def allPassRedeal (s : BidState) : Bool :=
  4 ≤ s.history.length &&
    ((s.history.drop (s.history.length - 4)).all (fun e => e.2 == 0))

/-- The trick-phase main reward of `PinochleBiddingEnv.step`:
```
if self.winning_team == 'ML':
    if ml_total >= self.winning_bid:
        main_reward = (ml_trick_points - opp_trick_points) + self.winning_bid
    else:
        main_reward = -self.winning_bid
else:
    main_reward = ml_total
```
-/
def trickMainReward (teamML : Bool) (winningBid mlTotal mlTp oppTp : Nat) : Int :=
  if teamML then
    if winningBid ≤ mlTotal then ((mlTp : Int) - (oppTp : Int)) + (winningBid : Int)
    else -(winningBid : Int)
  else (mlTotal : Int)

/-! ## Trick engine of `PinochleBiddingEnv.simulate_round` -/

/-- `follow = [c for c in hand if c[-1] == led_suit]`. -/
def srFollow (hand : List Card) (ledSuit : Suit) : List Card :=
  hand.filter (fun c => c.suit == ledSuit)

/-- `current_follow = [c for (_, c) in trick_cards if c[-1] == led_suit]`. -/
def srCurrentFollow (trickCards : List (Nat × Card)) (ledSuit : Suit) : List Card :=
  (trickCards.map Prod.snd).filter (fun c => c.suit == ledSuit)

/-- `can_beat = [c for c in follow if card_rank(c) > card_rank(current_high)]`. -/
def srCanBeat (follow : List Card) (currentHigh : Card) : List Card :=
  follow.filter (fun c => cardRank currentHigh < cardRank c)

/-- The card played by a following seat in `simulate_round` (the
`led_suit is not None` branch of the inner loop): follow suit with the forced
overtake while no trump has been played, else play the minimum; when void,
trump (beating the current best trump if possible); when also void of trump,
play the overall minimum. -/
def srFollowerChoice (trump : Suit) (hand : List Card) (trickCards : List (Nat × Card))
    (ledSuit : Suit) : Card :=
  let follow := srFollow hand ledSuit
  if follow ≠ [] then
    let trumpPlayed := trickCards.any (fun pc => pc.2.suit == trump)
    if ¬trumpPlayed then
      let currentFollow := srCurrentFollow trickCards ledSuit
      if currentFollow ≠ [] then
        let currentHigh := pyMaxBy cardRank default currentFollow
        let canBeat := srCanBeat follow currentHigh
        if canBeat ≠ [] then pyMinBy cardRank default canBeat
        else pyMinBy cardRank default follow
      else pyMinBy cardRank default follow
    else pyMinBy cardRank default follow
  else
    let trumps := hand.filter (fun c => c.suit == trump)
    if trumps ≠ [] then
      let playedTrumps := (trickCards.map Prod.snd).filter (fun c => c.suit == trump)
      if playedTrumps ≠ [] then
        let currentHigh := pyMaxBy cardRank default playedTrumps
        let better := trumps.filter (fun c => cardRank currentHigh < cardRank c)
        if better ≠ [] then pyMinBy cardRank default better
        else pyMinBy cardRank default trumps
      else pyMinBy cardRank default trumps
    else pyMinBy cardRank default hand

/-- The card led in `simulate_round` (the `led_suit is None` branch): the
contract winner must lead the trump Ace when holding one; otherwise the
highest non-trump card, or, with only trump in hand, the lowest card. -/
def srLeaderChoice (trump : Suit) (winningPlayer playerIdx : Nat) (hand : List Card) : Card :=
  if playerIdx = winningPlayer ∧
      hand.any (fun c => c.suit == trump && c.value == Value.vA) then
    (hand.filter (fun c => c.suit == trump && c.value == Value.vA)).headD default
  else
    let nonTrump := hand.filter (fun c => c.suit != trump)
    if nonTrump ≠ [] then pyMaxBy cardRank default nonTrump
    else pyMinBy cardRank default hand

/-- One seat's move of the inner `for i in range(4)` loop of
`simulate_round`: skip an empty hand, otherwise choose, remove and record a
card (establishing the led suit on the first play). -/
def srSeatMove (trump : Suit) (wp leader : Nat) (i : Nat)
    (acc : List (List Card) × List (Nat × Card) × Option Suit) :
    List (List Card) × List (Nat × Card) × Option Suit :=
  let (hs, trickCards, led) := acc
  let idx := (leader + i) % 4
  let hand := hs.getD idx []
  if hand = [] then acc
  else
    match led with
    | none =>
      let card := srLeaderChoice trump wp idx hand
      (hs.set idx (hand.erase card), trickCards ++ [(idx, card)], some card.suit)
    | some ls =>
      let card := srFollowerChoice trump hand trickCards ls
      (hs.set idx (hand.erase card), trickCards ++ [(idx, card)], some ls)

/-- One full trick of `simulate_round`: each of the four seats, in order from
the leader, plays one card. -/
def srPlayTrick (trump : Suit) (wp : Nat) (hands : List (List Card)) (leader : Nat) :
    List (List Card) × List (Nat × Card) × Option Suit :=
  (List.range 4).foldl (fun acc i => srSeatMove trump wp leader i acc) (hands, [], none)

/-- Trick resolution shared by `simulate_round` and
`PinochleEnv.simulate_trick_taking`: highest trump wins if any trump was
played, otherwise the highest card of the led suit.  (Python's `max` over an
empty sequence raises; the leader is the unreachable default.) -/
def trickWinner (trump : Suit) (led : Option Suit) (trickCards : List (Nat × Card))
    (leader : Nat) : Nat :=
  let trumpPlays := trickCards.filter (fun pc => pc.2.suit == trump)
  if trumpPlays ≠ [] then
    (pyMaxBy (fun pc => cardRank pc.2) (leader, default) trumpPlays).1
  else
    let ledPlays := trickCards.filter (fun pc => some pc.2.suit == led)
    if ledPlays ≠ [] then (pyMaxBy (fun pc => cardRank pc.2) (leader, default) ledPlays).1
    else leader

/-- `trick_points = sum(1 for (_, c) in trick_cards if c[:-1] in ['K','10','A'])`
plus the 12th-trick (+1) bonus. -/
def trickPointsOf (trickCards : List (Nat × Card)) (trickIdx : Nat) : Nat :=
  (trickCards.countP (fun pc => counterCard pc.2)) + (if trickIdx = 11 then 1 else 0)

/-- The 12-trick loop of `simulate_round`, returning the two teams' trick
points (`team_trick_points`).  Plays on copies of the hands; the leader of
the first trick is the winning player; the winner of each trick leads the
next. -/
def srTrickLoop (trump : Suit) (wp : Nat) (hands : List (List Card)) : Nat × Nat :=
  let final := (List.range 12).foldl
    (fun (acc : List (List Card) × Nat × Nat × Nat) t =>
      let (hs, leader, mlTp, oppTp) := acc
      let (hs1, trickCards, led) := srPlayTrick trump wp hs leader
      let winner := trickWinner trump led trickCards leader
      let pts := trickPointsOf trickCards t
      if winner = 0 ∨ winner = 2 then (hs1, winner, mlTp + pts, oppTp)
      else (hs1, winner, mlTp, oppTp + pts))
    (hands, wp, 0, 0)
  (final.2.2.1, final.2.2.2)

/-- `PinochleBiddingEnv.simulate_round`: run the 12 tricks on copies of the
hands, then return
`(ml_meld + ml_trick_points, opp_meld + opp_trick_points, ml_trick_points,
opp_trick_points)` where the melds are evaluated on the (unplayed) hands of
seats 0/2 and 1/3. -/
def simulateRound (hands : List (List Card)) (wp : Nat) (trump : Suit) :
    Nat × Nat × Nat × Nat :=
  let tp := srTrickLoop trump wp hands
  let mlMeld := evaluate (hands.getD 0 []) + evaluate (hands.getD 2 [])
  let oppMeld := evaluate (hands.getD 1 []) + evaluate (hands.getD 3 [])
  (mlMeld + tp.1, oppMeld + tp.2, tp.1, tp.2)

/-! ## Trick engine of `PinochleEnv.simulate_trick_taking` -/

/-- The card played by a following seat in `PinochleEnv.simulate_trick_taking`:
the minimum of the led suit when holding any (no forced overtake here);
otherwise trump (beating the best played trump if possible); otherwise the
lowest card. -/
def pteFollowerChoice (trump : Suit) (hand : List Card) (trickCards : List (Nat × Card))
    (ledSuit : Suit) : Card :=
  let follow := srFollow hand ledSuit
  if follow ≠ [] then pyMinBy cardRank default follow
  else
    let trumps := hand.filter (fun c => c.suit == trump)
    if trumps ≠ [] then
      let playedTrumps := (trickCards.map Prod.snd).filter (fun c => c.suit == trump)
      if playedTrumps ≠ [] then
        let currentHigh := pyMaxBy cardRank default playedTrumps
        let better := trumps.filter (fun c => cardRank currentHigh < cardRank c)
        if better ≠ [] then pyMinBy cardRank default better
        else pyMinBy cardRank default trumps
      else pyMinBy cardRank default trumps
    else pyMinBy cardRank default hand

/-- The card led in `simulate_trick_taking`: the highest non-trump card, or
the lowest card when holding only trump. -/
def pteLeaderChoice (trump : Suit) (hand : List Card) : Card :=
  let nonTrump := hand.filter (fun c => c.suit != trump)
  if nonTrump ≠ [] then pyMaxBy cardRank default nonTrump
  else pyMinBy cardRank default hand

/-- One seat's move in a `simulate_trick_taking` trick. -/
def pteSeatMove (trump : Suit) (leader : Nat) (i : Nat)
    (acc : List (List Card) × List (Nat × Card) × Option Suit) :
    List (List Card) × List (Nat × Card) × Option Suit :=
  let (hs, trickCards, led) := acc
  let idx := (leader + i) % 4
  let hand := hs.getD idx []
  match led with
  | none =>
    let card := pteLeaderChoice trump hand
    (hs.set idx (hand.erase card), trickCards ++ [(idx, card)], some card.suit)
  | some ls =>
    let card := pteFollowerChoice trump hand trickCards ls
    (hs.set idx (hand.erase card), trickCards ++ [(idx, card)], some ls)

/-- One full trick of `simulate_trick_taking`. -/
def ptePlayTrick (trump : Suit) (hands : List (List Card)) (leader : Nat) :
    List (List Card) × List (Nat × Card) × Option Suit :=
  (List.range 4).foldl (fun acc i => pteSeatMove trump leader i acc) (hands, [], none)

/-- The 12-trick loop of `simulate_trick_taking` (the bidder, seat 0, leads
the first trick; seats 0 and 1 are the ML team here), returning
`team_trick_points` for ML and OPP. -/
def pteTrickLoop (trump : Suit) (hands : List (List Card)) : Nat × Nat :=
  let final := (List.range 12).foldl
    (fun (acc : List (List Card) × Nat × Nat × Nat) t =>
      let (hs, leader, mlTp, oppTp) := acc
      let (hs1, trickCards, led) := ptePlayTrick trump hs leader
      let winner := trickWinner trump led trickCards leader
      let pts := trickPointsOf trickCards t
      if winner = 0 ∨ winner = 1 then (hs1, winner, mlTp + pts, oppTp)
      else (hs1, winner, mlTp, oppTp + pts))
    (hands, 0, 0, 0)
  (final.2.2.1, final.2.2.2)

/-- `PinochleEnv.simulate_trick_taking`: returns `(ml_total, opp_total)`,
where a team keeps `meld + trick_points` only if its trick points are
positive and otherwise scores 0 (meld forfeit):
```
ml_total = (ml_meld + team_trick_points['ML']) if team_trick_points['ML'] > 0 else 0
opp_total = (opp_meld + team_trick_points['OPP']) if team_trick_points['OPP'] > 0 else 0
```
The hands are `(bidder, partner, opponent1, opponent2)`. -/
def simulateTrickTaking (bidderHand partnerHand opp1Hand opp2Hand : List Card)
    (trump : Suit) : Nat × Nat :=
  let mlMeld := evaluate bidderHand + evaluate partnerHand
  let oppMeld := evaluate opp1Hand + evaluate opp2Hand
  let tp := pteTrickLoop trump [bidderHand, partnerHand, opp1Hand, opp2Hand]
  (if 0 < tp.1 then mlMeld + tp.1 else 0, if 0 < tp.2 then oppMeld + tp.2 else 0)

/-! ## Lookahead estimator (`_get_legal_moves`, `_simulate_random_playout`,
`mcts_optimal_value`) -/

/-- The playout state dictionary of `_get_current_state` / `_copy_state`:
`hands`, `leader`, `current_trick`, `trick_number`, `trump`. -/
structure PlayState : Type where
  hands : List (List Card)
  leader : Nat
  currentTrick : List (Nat × Card)
  trickNumber : Nat
  trump : Suit
deriving DecidableEq, Repr

/-- `PinochleBiddingEnv._get_legal_moves`: the whole hand when leading;
otherwise the led-suit cards, restricted to those beating the best led-suit
card already played whenever any can (note: applied regardless of whether a
trump has been played); the whole hand when void in the led suit (no
obligation to trump). -/
def getLegalMoves (st : PlayState) (player : Nat) : List Card :=
  let hand := st.hands.getD player []
  if st.currentTrick = [] then hand
  else
    let ledSuit := (st.currentTrick.headD (0, default)).2.suit
    let candidates := hand.filter (fun c => c.suit == ledSuit)
    if candidates ≠ [] then
      let currentCards := (st.currentTrick.map Prod.snd).filter (fun c => c.suit == ledSuit)
      if currentCards ≠ [] then
        let currentHigh := pyMaxBy cardRank default currentCards
        let forced := candidates.filter (fun c => cardRank currentHigh < cardRank c)
        if forced ≠ [] then forced else candidates
      else candidates
    else hand

/-- Modelled from the spec, section 4.5: the legal moves of a following seat.
A seat holding led-suit cards must follow; if no trump has yet appeared, the
led suit is not trump and the seat can beat the current best led-suit card,
it must play the lowest such beating card; a seat void in the led suit must
play a trump when holding one (the lowest trump beating the best played trump
when it can beat it); with neither led suit nor trump, any card is legal.
Used only to compare the code's legal-move set against the specified one. -/
def legalMovesSpec (st : PlayState) (player : Nat) : List Card :=
  let hand := st.hands.getD player []
  if st.currentTrick = [] then hand
  else
    let ledSuit := (st.currentTrick.headD (0, default)).2.suit
    let candidates := hand.filter (fun c => c.suit == ledSuit)
    let trumpPlayed := st.currentTrick.any (fun pc => pc.2.suit == st.trump)
    if candidates ≠ [] then
      if ¬trumpPlayed ∧ ledSuit ≠ st.trump then
        let currentCards := (st.currentTrick.map Prod.snd).filter (fun c => c.suit == ledSuit)
        if currentCards ≠ [] then
          let currentHigh := pyMaxBy cardRank default currentCards
          let beating := candidates.filter (fun c => cardRank currentHigh < cardRank c)
          if beating ≠ [] then
            beating.filter (fun c => cardRank c = cardRank (pyMinBy cardRank default beating))
          else candidates
        else candidates
      else candidates
    else
      let trumps := hand.filter (fun c => c.suit == st.trump)
      if trumps ≠ [] then
        if trumpPlayed then
          let playedTrumps := (st.currentTrick.map Prod.snd).filter
            (fun c => c.suit == st.trump)
          let currentHigh := pyMaxBy cardRank default playedTrumps
          let better := trumps.filter (fun c => cardRank currentHigh < cardRank c)
          if better ≠ [] then
            better.filter (fun c => cardRank c = cardRank (pyMinBy cardRank default better))
          else trumps
        else trumps
      else hand

/-- `random.choice(legal_moves) if legal_moves else None`, with the random
draw supplied as an index `r` (reduced modulo the list length). -/
def pyChoice (l : List Card) (r : Nat) : Option Card :=
  if l = [] then none else some (l.getD (r % l.length) default)

/-- `PinochleBiddingEnv._simulate_move`: play the chosen card (if any) and,
when the trick is complete, resolve it — highest trump wins, else highest
led-suit card; one point per King/Ten/Ace plus the 12th-trick bonus; the
score is the trick's points signed positively exactly when the winner is
seat 0 or 2 (the ML partnership). -/
def simulateMove (st : PlayState) (player : Nat) (card : Option Card) :
    PlayState × Int :=
  let st1 :=
    match card with
    | some c =>
      { st with hands := st.hands.set player ((st.hands.getD player []).erase c),
                currentTrick := st.currentTrick ++ [(player, c)] }
    | none => st
  if st1.currentTrick.length = 4 then
    let trick := st1.currentTrick
    let ledSuit := (trick.headD (0, default)).2.suit
    let trumpCards := trick.filter (fun pc => pc.2.suit == st1.trump)
    let winner :=
      if trumpCards ≠ [] then (pyMaxBy (fun pc => cardRank pc.2) (0, default) trumpCards).1
      else (pyMaxBy (fun pc => cardRank pc.2) (0, default)
        (trick.filter (fun pc => pc.2.suit == ledSuit))).1
    let pts := trickPointsOf trick st.trickNumber
    let score : Int := if winner = 0 ∨ winner = 2 then (pts : Int) else -(pts : Int)
    ({ st1 with leader := winner, currentTrick := [], trickNumber := st1.trickNumber + 1 },
     score)
  else (st1, 0)

/-- The `while not self._is_terminal(...)` loop of
`_simulate_random_playout`, with explicit fuel: on well-formed full states the
loop runs exactly 48 iterations (one card per iteration), so fuel 48 is
exact; on malformed states where the Python loop would not terminate the fuel
cuts it off. -/
def playoutGo : Nat → PlayState → (Nat → Nat) → Nat → Int → Int
  | 0, _, _, _, total => total
  | fuel + 1, st, rng, stepIdx, total =>
    if st.trickNumber = 12 then total
    else
      let player := (st.leader + st.currentTrick.length) % 4
      let moves := getLegalMoves st player
      let mv := pyChoice moves (rng stepIdx)
      let next := simulateMove st player mv
      playoutGo fuel next.1 rng (stepIdx + 1) (total + next.2)

/-- `_simulate_random_playout(state)`: the total signed trick-point score of
one random playout, the randomness being the stream `rng` of choice indices. -/
def playoutValue (st : PlayState) (rng : Nat → Nat) : Int :=
  playoutGo 48 st rng 0 0

/-- `mcts_optimal_value(state, iterations)`:
`total = 0; for _ in range(iterations): total += playout; return total / iterations`
(Python 3 true division, taken in `ℚ`). -/
def mctsOptimalValue (st : PlayState) (iterations : Nat) (rngs : Nat → Nat → Nat) : ℚ :=
  (((List.range iterations).foldl (fun t i => t + playoutValue st (rngs i)) (0 : Int) : Int) : ℚ)
    / (iterations : ℚ)

/-! ## Claim theorems -/

/-- C2.  MeldEvaluator is a pure function of the hand: `evaluate(hand)`
equals the sum, over every configured meld pattern, of that pattern's point
value exactly when the hand contains each card listed in the pattern at least
the pattern's required number of times, each pattern scored independently of
the others (overlapping patterns may each contribute their points). -/
theorem c2_meld_evaluator_sum (hand : List Card) :
    evaluate hand =
      (meldHands.map
        (fun p => if ∀ c ∈ p.cards, p.occurrences ≤ hand.count c then p.points else 0)).sum :=
  evaluate_eq_meldSum hand

/-- The 24 patterns of `config.meldHands` other than `Round Of Aces` and
`All Aces`, in configuration order. -/
def nonAceMelds : List MeldPattern :=
  [⟨[cKC, cKD, cKH, cKS], 8, 1⟩,
   ⟨[cQC, cQD, cQH, cQS], 6, 1⟩,
   ⟨[cJC, cJD, cJH, cJS], 4, 1⟩,
   ⟨[cKC, cKD, cKH, cKS], 72, 2⟩,
   ⟨[cQC, cQD, cQH, cQS], 54, 2⟩,
   ⟨[cJC, cJD, cJH, cJS], 36, 2⟩,
   ⟨[cKC, cQC], 2, 1⟩,
   ⟨[cKC, cQC], 2, 2⟩,
   ⟨[cKD, cQD], 2, 1⟩,
   ⟨[cKD, cQD], 2, 2⟩,
   ⟨[cKH, cQH], 2, 1⟩,
   ⟨[cKH, cQH], 2, 2⟩,
   ⟨[cKS, cQS], 2, 1⟩,
   ⟨[cKS, cQS], 2, 2⟩,
   ⟨[cJC, cQC, cKC, c10C, cAC], 13, 1⟩,
   ⟨[cJD, cQD, cKD, c10D, cAD], 13, 1⟩,
   ⟨[cJH, cQH, cKH, c10H, cAH], 13, 1⟩,
   ⟨[cJS, cQS, cKS, c10S, cAS], 13, 1⟩,
   ⟨[cJC, cQC, cKC, c10C, cAC], 133, 2⟩,
   ⟨[cJD, cQD, cKD, c10D, cAD], 133, 2⟩,
   ⟨[cJH, cQH, cKH, c10H, cAH], 133, 2⟩,
   ⟨[cJS, cQS, cKS, c10S, cAS], 133, 2⟩,
   ⟨[cQS, cJD], 4, 1⟩,
   ⟨[cQS, cJD], 26, 2⟩]

/-- The meld points a hand collects from the non-Ace patterns. -/
def restMeldSum (hand : List Card) : Nat := (nonAceMelds.map (meldTerm hand)).sum

/-- C9 (counterexample).  A hand holding exactly two copies of each Ace
satisfies the required multiplicity of the `All Aces` pattern, yet `evaluate`
returns 100, not the configured `All Aces` value 90: the `Round Of Aces`
pattern (10 points, multiplicity 1) also fires on the same cards. -/
theorem c9_aces_counterexample :
    (∀ s : Suit, 2 ≤ ([cAC, cAC, cAD, cAD, cAH, cAH, cAS, cAS] : List Card).count ⟨Value.vA, s⟩) ∧
    evaluate [cAC, cAC, cAD, cAD, cAH, cAH, cAS, cAS] = 100 ∧
    evaluate [cAC, cAC, cAD, cAD, cAH, cAH, cAS, cAS] ≠ 90 := by decide

/-- C9 (amended).  Any hand holding each of the four Aces at least twice
scores both `All Aces` (90) and `Round Of Aces` (10): `evaluate` returns
exactly 100 plus the contributions of the 24 non-Ace patterns (so exactly 100
on the bare double-Ace holding). -/
theorem c9_aces_amended (hand : List Card)
    (h : ∀ s : Suit, 2 ≤ hand.count ⟨Value.vA, s⟩) :
    evaluate hand = 100 + restMeldSum hand := by
  have hA1 : meldTerm hand ⟨[cAC, cAD, cAH, cAS], 10, 1⟩ = 10 := by
    rw [meldTerm, if_pos]
    intro c hc
    simp only [List.mem_cons, List.not_mem_nil, or_false] at hc
    rcases hc with rfl | rfl | rfl | rfl <;>
      exact le_trans (by norm_num) (h _)
  have hA2 : meldTerm hand ⟨[cAC, cAD, cAH, cAS], 90, 2⟩ = 90 := by
    rw [meldTerm, if_pos]
    intro c hc
    simp only [List.mem_cons, List.not_mem_nil, or_false] at hc
    rcases hc with rfl | rfl | rfl | rfl <;> exact h _
  rw [evaluate_eq_meldSum]
  unfold meldSum meldHands restMeldSum nonAceMelds
  simp only [List.map_cons, List.sum_cons, List.map_nil, List.sum_nil]
  rw [hA1, hA2]
  omega

/-- C9 (witness for the amended theorem at the double-Ace hand). -/
theorem c9_aces_amended_witness :
    (∀ s : Suit, 2 ≤ ([cAC, cAC, cAD, cAD, cAH, cAH, cAS, cAS] : List Card).count ⟨Value.vA, s⟩) ∧
    evaluate [cAC, cAC, cAD, cAD, cAH, cAH, cAS, cAS] =
      100 + restMeldSum [cAC, cAC, cAD, cAD, cAH, cAH, cAS, cAS] :=
  ⟨by decide, c9_aces_amended _ (by decide)⟩

theorem checkBidTermination_winningBid {s : BidState} {w : WinInfo}
    (h : checkBidTermination s = some w) : w.winningBid = 20 := by
  unfold checkBidTermination at h
  by_cases hc : s.active.count true = 1
  · rw [if_pos hc] at h
    injection h with h1
    rw [← h1]
  · rw [if_neg hc] at h
    exact Option.noConfusion h

/-- C10 (implicit).  Whenever a bidding step terminates bidding with exactly
one active seat, the recorded winning bid is the constant 20, whatever the
state, the action and the random draws were; consequently the trick-phase
reward for the contract team compares `ml_total` with 20 and its
plus-or-minus winning-bid terms are `+20` and `-20`. -/
theorem c10_winning_bid_constant :
    (∀ (s : BidState) (a : Nat) (r : RandBid) (w : WinInfo),
      checkBidTermination (bidStep s a r) = some w → w.winningBid = 20) ∧
    (∀ (s : BidState) (a : Nat) (r : RandBid) (w : WinInfo) (mlTotal mlTp oppTp : Nat),
      checkBidTermination (bidStep s a r) = some w →
      trickMainReward w.teamML w.winningBid mlTotal mlTp oppTp =
        if w.teamML then
          (if 20 ≤ mlTotal then ((mlTp : Int) - (oppTp : Int)) + 20 else -20)
        else (mlTotal : Int)) := by
  constructor
  · intro s a r w h
    exact checkBidTermination_winningBid h
  · intro s a r w mlTotal mlTp oppTp h
    rw [trickMainReward, checkBidTermination_winningBid h]
    norm_num

/-- C10 (witness): a concrete step that ends bidding, recording winning bid
20. -/
theorem c10_winning_bid_constant_witness :
    checkBidTermination (bidStep ⟨31, [true, true, false, false], 1, []⟩ 0 RandBid.pass) =
      some ⟨0, 20, true⟩ ∧
    (⟨0, 20, true⟩ : WinInfo).winningBid = 20 :=
  ⟨by decide, c10_winning_bid_constant.1 ⟨31, [true, true, false, false], 1, []⟩ 0
    RandBid.pass ⟨0, 20, true⟩ (by decide)⟩

/-- C3 (counterexample).  The below-30 floor does not apply to the three
non-ML seats: from the reachable state after the ML bidder passes at the
opening (current_bid 20, turn 1), seat 1's random bid 21 — a legal
`randint(21, 50)` draw — is accepted, setting `current_bid` to 21, strictly
between 20 and 30. -/
theorem c3_floor_counterexample :
    (bidStep initBidding 0 RandBid.pass).currentBid = 20 ∧
    (bidStep initBidding 0 RandBid.pass).currentTurn = 1 ∧
    checkBidTermination (bidStep initBidding 0 RandBid.pass) = none ∧
    allPassRedeal (bidStep initBidding 0 RandBid.pass) = false ∧
    (bidStep initBidding 0 RandBid.pass).currentBid + 1 ≤ 21 ∧ 21 ≤ 50 ∧
    (bidStep (bidStep initBidding 0 RandBid.pass) 0 (RandBid.bid 21)).currentBid = 21 ∧
    (bidStep (bidStep initBidding 0 RandBid.pass) 0 (RandBid.bid 21)).history.getLast? =
      some (1, 21) ∧
    20 < 21 ∧ 21 < 30 := by decide

/-- C3 (amended).  The bidding floor applies to the ML bidder (seat 0) only:
whenever `current_bid < 30`, any non-pass bid accepted from seat 0 is at
least 30; the three non-ML seats are not subject to the floor and accept any
random draw in `[current_bid + 1, 50]` as `current_bid`, including values
strictly between 20 and 30. -/
theorem c3_floor_amended :
    (∀ currentBid action : Nat, currentBid < 30 → action ≠ 0 →
      30 ≤ mlBid currentBid action) ∧
    (∀ (s : BidState) (a n : Nat), s.currentTurn ≠ 0 →
      ¬(s.currentTurn = 2 ∧ s.active.getD 0 false = true ∧ s.active.getD 2 false = true ∧
        (s.active.getD 1 false = false ∧ s.active.getD 3 false = false)) →
      s.currentBid < 50 → s.currentBid + 1 ≤ n →
      (bidStep s a (RandBid.bid n)).currentBid = n) := by
  constructor
  · intro cb a hcb ha
    simp only [mlBid, if_neg ha]
    split_ifs <;> omega
  · intro s a n ht hsp hcb hn
    have hbid : nonMlBid s (RandBid.bid n) = n := by
      simp only [nonMlBid, if_neg hsp]
      rw [if_neg (by omega : ¬ 50 ≤ s.currentBid)]
    simp only [bidStep, if_neg ht, hbid]
    rw [if_neg (by omega : ¬ n = 0)]

/-- C3 (witness for the amended theorem). -/
theorem c3_floor_amended_witness :
    (25 < 30 ∧ (27 : Nat) ≠ 0 ∧ 30 ≤ mlBid 25 27) ∧
    ((bidStep ⟨20, [false, true, true, true], 1, [(0, 0)]⟩ 0 (RandBid.bid 21)).currentBid = 21) :=
  ⟨⟨by decide, by decide, c3_floor_amended.1 25 27 (by decide) (by decide)⟩,
   c3_floor_amended.2 ⟨20, [false, true, true, true], 1, [(0, 0)]⟩ 0 21 (by decide)
     (by decide) (by decide) (by decide)⟩

/-- C4 (code bug).  The 50 ceiling is violated by the clamp: from the
reachable state where seat 0 opened at 30, seat 1 raised to 50 (a legal
`randint(31, 50)` draw) and seats 2 and 3 passed at the ceiling, the ML
bidder's non-pass action 50 is clamped to `current_bid + 1 = 51`, which is
recorded in the history and stored as `current_bid` — exceeding 50. -/
theorem c4_ceiling_violation :
    (bidStep initBidding 30 RandBid.pass).currentBid + 1 ≤ 50 ∧
    (bidStep
      (bidStep (bidStep (bidStep initBidding 30 RandBid.pass) 0 (RandBid.bid 50)) 0
        RandBid.pass) 0 RandBid.pass).currentTurn = 0 ∧
    checkBidTermination
      (bidStep (bidStep (bidStep (bidStep initBidding 30 RandBid.pass) 0 (RandBid.bid 50)) 0
        RandBid.pass) 0 RandBid.pass) = none ∧
    allPassRedeal
      (bidStep (bidStep (bidStep (bidStep initBidding 30 RandBid.pass) 0 (RandBid.bid 50)) 0
        RandBid.pass) 0 RandBid.pass) = false ∧
    (bidStep
      (bidStep (bidStep (bidStep (bidStep initBidding 30 RandBid.pass) 0 (RandBid.bid 50)) 0
        RandBid.pass) 0 RandBid.pass) 50 RandBid.pass).currentBid = 51 ∧
    (bidStep
      (bidStep (bidStep (bidStep (bidStep initBidding 30 RandBid.pass) 0 (RandBid.bid 50)) 0
        RandBid.pass) 0 RandBid.pass) 50 RandBid.pass).history.getLast? = some (0, 51) ∧
    50 <
      (bidStep
        (bidStep (bidStep (bidStep (bidStep initBidding 30 RandBid.pass) 0 (RandBid.bid 50)) 0
          RandBid.pass) 0 RandBid.pass) 50 RandBid.pass).currentBid := by decide

theorem getD_set_false (l : List Bool) :
    ∀ (n i : Nat), l.getD i false = false → (l.set n false).getD i false = false := by
  induction l with
  | nil => intro n i _; simp
  | cons b bs ih =>
    intro n i h
    cases n with
    | zero =>
      cases i with
      | zero => simp
      | succ i => simpa using h
    | succ n =>
      cases i with
      | zero => simpa using h
      | succ i =>
        simp only [List.set_cons_succ, List.getD_cons_succ]
        exact ih n i (by simpa using h)

/-- C5 (amended).  A seat that has passed is never re-activated, and the turn
order is a fixed round-robin over the four seats; however the rotation does
not skip inactive seats: a seat that has passed still acts on its turn, its
bid is appended to the history, and a non-pass bid from it updates
`current_bid` (see the counterexample theorem). -/
theorem c5_no_reactivation (s : BidState) (a : Nat) (r : RandBid) :
    (∀ i, s.active.getD i false = false → (bidStep s a r).active.getD i false = false) ∧
    (bidStep s a r).currentTurn = (s.currentTurn + 1) % 4 ∧
    ∃ b, (bidStep s a r).history = s.history ++ [(s.currentTurn, b)] := by
  refine ⟨?_, ?_, ?_⟩
  · intro i hi
    simp only [bidStep]
    split_ifs <;>
      first
        | exact getD_set_false s.active s.currentTurn i hi
        | exact hi
  · simp only [bidStep]
    split_ifs <;> rfl
  · simp only [bidStep]
    split_ifs <;> exact ⟨_, rfl⟩

/-- C5 (witness for the amended theorem; the hypothesis instance is seat 0
inactive after passing). -/
theorem c5_no_reactivation_witness :
    ((⟨20, [false, true, true, true], 1, [(0, 0)]⟩ : BidState).active.getD 0 false = false) ∧
    (bidStep ⟨20, [false, true, true, true], 1, [(0, 0)]⟩ 0 (RandBid.bid 25)).active.getD 0
      false = false :=
  ⟨by decide,
   (c5_no_reactivation ⟨20, [false, true, true, true], 1, [(0, 0)]⟩ 0 (RandBid.bid 25)).1 0
     (by decide)⟩

/-- C5 (counterexample).  Inactive seats do act: after seat 0 passes at the
opening and seats 1–3 raise to 25, 30, 35 (all legal random draws, bidding
still live), the rotation returns to the now-inactive seat 0, whose non-pass
action 40 is recorded in the history as a bid of seat 0 and changes
`current_bid` from 35 to 40. -/
theorem c5_inactive_seat_acts :
    (bidStep (bidStep (bidStep (bidStep initBidding 0 RandBid.pass) 0 (RandBid.bid 25)) 0
      (RandBid.bid 30)) 0 (RandBid.bid 35)).active.getD 0 false = false ∧
    (bidStep (bidStep (bidStep (bidStep initBidding 0 RandBid.pass) 0 (RandBid.bid 25)) 0
      (RandBid.bid 30)) 0 (RandBid.bid 35)).currentTurn = 0 ∧
    (bidStep (bidStep (bidStep (bidStep initBidding 0 RandBid.pass) 0 (RandBid.bid 25)) 0
      (RandBid.bid 30)) 0 (RandBid.bid 35)).currentBid = 35 ∧
    checkBidTermination
      (bidStep (bidStep (bidStep (bidStep initBidding 0 RandBid.pass) 0 (RandBid.bid 25)) 0
        (RandBid.bid 30)) 0 (RandBid.bid 35)) = none ∧
    allPassRedeal
      (bidStep (bidStep (bidStep (bidStep initBidding 0 RandBid.pass) 0 (RandBid.bid 25)) 0
        (RandBid.bid 30)) 0 (RandBid.bid 35)) = false ∧
    (bidStep (bidStep (bidStep (bidStep (bidStep initBidding 0 RandBid.pass) 0
      (RandBid.bid 25)) 0 (RandBid.bid 30)) 0 (RandBid.bid 35)) 40 RandBid.pass).currentBid =
      40 ∧
    (bidStep (bidStep (bidStep (bidStep (bidStep initBidding 0 RandBid.pass) 0
      (RandBid.bid 25)) 0 (RandBid.bid 30)) 0 (RandBid.bid 35)) 40
      RandBid.pass).history.getLast? = some (0, 40) ∧
    (bidStep (bidStep (bidStep (bidStep (bidStep initBidding 0 RandBid.pass) 0
      (RandBid.bid 25)) 0 (RandBid.bid 30)) 0 (RandBid.bid 35)) 40 RandBid.pass).active.getD 0
      false = false := by decide

/-- C6.  Forced overtake in the trick engine of `simulate_round`: whenever a
following seat holds cards of the led suit, no trump has yet appeared in the
trick, and the seat holds at least one led-suit card ranked strictly above
the current best led-suit card of the trick (rank order 9 < J < Q < K < 10 <
A), it plays the lowest such beating card — a led-suit card that beats the
current best and has minimal rank among the beating cards — and never a
non-beating card; absent a beating card it plays some led-suit card. -/
theorem c6_forced_overtake (trump ledSuit : Suit) (hand : List Card)
    (tc : List (Nat × Card))
    (h1 : srFollow hand ledSuit ≠ [])
    (h2 : ∀ pc ∈ tc, pc.2.suit ≠ trump)
    (h3 : srCurrentFollow tc ledSuit ≠ []) :
    (srCanBeat (srFollow hand ledSuit)
        (pyMaxBy cardRank default (srCurrentFollow tc ledSuit)) ≠ [] →
      srFollowerChoice trump hand tc ledSuit ∈
        srCanBeat (srFollow hand ledSuit)
          (pyMaxBy cardRank default (srCurrentFollow tc ledSuit)) ∧
      (srFollowerChoice trump hand tc ledSuit).suit = ledSuit ∧
      cardRank (pyMaxBy cardRank default (srCurrentFollow tc ledSuit)) <
        cardRank (srFollowerChoice trump hand tc ledSuit) ∧
      ∀ c ∈ srCanBeat (srFollow hand ledSuit)
          (pyMaxBy cardRank default (srCurrentFollow tc ledSuit)),
        cardRank (srFollowerChoice trump hand tc ledSuit) ≤ cardRank c) ∧
    (srCanBeat (srFollow hand ledSuit)
        (pyMaxBy cardRank default (srCurrentFollow tc ledSuit)) = [] →
      srFollowerChoice trump hand tc ledSuit ∈ srFollow hand ledSuit) := by
  have hTp : (tc.any fun pc => pc.2.suit == trump) = false := by
    rw [List.any_eq_false]
    intro pc hpc
    simpa using h2 pc hpc
  have hch : srFollowerChoice trump hand tc ledSuit =
      (if srCanBeat (srFollow hand ledSuit)
          (pyMaxBy cardRank default (srCurrentFollow tc ledSuit)) ≠ [] then
        pyMinBy cardRank default
          (srCanBeat (srFollow hand ledSuit)
            (pyMaxBy cardRank default (srCurrentFollow tc ledSuit)))
      else pyMinBy cardRank default (srFollow hand ledSuit)) := by
    simp only [srFollowerChoice]
    rw [if_pos h1, if_pos (by rw [hTp]; simp), if_pos h3]
  constructor
  · intro hcb
    have hmemCB : srFollowerChoice trump hand tc ledSuit ∈
        srCanBeat (srFollow hand ledSuit)
          (pyMaxBy cardRank default (srCurrentFollow tc ledSuit)) := by
      rw [hch, if_pos hcb]
      exact pyMinBy_mem _ _ hcb
    have hmemF : srFollowerChoice trump hand tc ledSuit ∈ srFollow hand ledSuit := by
      have h4 := hmemCB
      unfold srCanBeat at h4
      exact (List.mem_filter.mp h4).1
    refine ⟨hmemCB, ?_, ?_, ?_⟩
    · have h5 := hmemF
      unfold srFollow at h5
      have h6 := (List.mem_filter.mp h5).2
      simpa using h6
    · have h4 := hmemCB
      unfold srCanBeat at h4
      have h6 := (List.mem_filter.mp h4).2
      simpa using h6
    · intro c hc
      rw [hch, if_pos hcb]
      exact pyMinBy_le _ _ hcb c hc
  · intro hcb
    rw [hch, if_neg (by simp [hcb])]
    exact pyMinBy_mem _ _ h1

/-- C6 (witness): with hearts led, `KH` the current best, spades trump, and a
seat holding `9H, 10H, AH`, the engine's choice is a minimal beating card. -/
theorem c6_forced_overtake_witness :
    (srFollow [c9H, c10H, cAH] Suit.H ≠ [] ∧
      (∀ pc ∈ [((0 : Nat), cKH)], pc.2.suit ≠ Suit.S) ∧
      srCurrentFollow [((0 : Nat), cKH)] Suit.H ≠ []) ∧
    srFollowerChoice Suit.S [c9H, c10H, cAH] [((0 : Nat), cKH)] Suit.H ∈
      srCanBeat (srFollow [c9H, c10H, cAH] Suit.H)
        (pyMaxBy cardRank default (srCurrentFollow [((0 : Nat), cKH)] Suit.H)) :=
  ⟨⟨by decide, by decide, by decide⟩,
   ((c6_forced_overtake Suit.S Suit.H [c9H, c10H, cAH] [((0 : Nat), cKH)]
      (by decide) (by decide) (by decide)).1 (by decide)).1⟩

/-- The bidder's hand in the meld-forfeit counterexample round: both copies
of the non-spade Aces plus one copy each of 10C, 10D, 10H, KC, KD, KH. -/
def forfeitBidderHand : List Card :=
  [cAC, cAC, cAD, cAD, cAH, cAH, c10C, c10D, c10H, cKC, cKD, cKH]

/-- The partner's hand: all spade counters plus the remaining copies of
10C, 10D, 10H, KC, KD, KH. -/
def forfeitPartnerHand : List Card :=
  [cAS, cAS, c10S, c10S, cKS, cKS, c10C, c10D, c10H, cKC, cKD, cKH]

/-- Each opponent's hand: one copy of every 9, J and Q. -/
def forfeitOppHand : List Card :=
  [c9C, cJC, cQC, c9D, cJD, cQD, c9H, cJH, cQH, c9S, cJS, cQS]


theorem simulateRound_fst (hands : List (List Card)) (wp : Nat) (trump : Suit) :
    (simulateRound hands wp trump).1 =
      evaluate (hands.getD 0 []) + evaluate (hands.getD 2 []) +
        (simulateRound hands wp trump).2.2.1 := by
  simp only [simulateRound]

theorem simulateRound_snd (hands : List (List Card)) (wp : Nat) (trump : Suit) :
    (simulateRound hands wp trump).2.1 =
      evaluate (hands.getD 1 []) + evaluate (hands.getD 3 []) +
        (simulateRound hands wp trump).2.2.2 := by
  simp only [simulateRound]

theorem trickMainReward_met (wb mlTotal mlTp oppTp : Nat) (h : wb ≤ mlTotal) :
    trickMainReward true wb mlTotal mlTp oppTp =
      ((mlTp : Int) - (oppTp : Int)) + (wb : Int) := by
  simp [trickMainReward, h]

theorem trickMainReward_missed (wb mlTotal mlTp oppTp : Nat) (h : mlTotal < wb) :
    trickMainReward true wb mlTotal mlTp oppTp = -(wb : Int) := by
  simp [trickMainReward, Nat.not_le.mpr h]

theorem simulateTrickTaking_pos (b p o1 o2 : List Card) (trump : Suit)
    (h1 : 0 < (pteTrickLoop trump [b, p, o1, o2]).1)
    (h2 : 0 < (pteTrickLoop trump [b, p, o1, o2]).2) :
    simulateTrickTaking b p o1 o2 trump =
      (evaluate b + evaluate p + (pteTrickLoop trump [b, p, o1, o2]).1,
       evaluate o1 + evaluate o2 + (pteTrickLoop trump [b, p, o1, o2]).2) := by
  simp only [simulateTrickTaking]
  rw [if_pos h1, if_pos h2]

/-- C7 (counterexample).  In `PinochleEnv.simulate_trick_taking` the round
total is *not* always meld plus trick points: on this full-deck deal (spades
trump) the opponents capture zero trick points, so their meld of 28 is
forfeited and their returned total is 0, not 28 + 0. -/
theorem c7_meld_forfeit_counterexample :
    ((forfeitBidderHand ++ forfeitPartnerHand ++ forfeitOppHand ++ forfeitOppHand).Perm
      fullDeck) ∧
    (pteTrickLoop Suit.S
      [forfeitBidderHand, forfeitPartnerHand, forfeitOppHand, forfeitOppHand]).2 = 0 ∧
    evaluate forfeitOppHand + evaluate forfeitOppHand = 28 ∧
    simulateTrickTaking forfeitBidderHand forfeitPartnerHand forfeitOppHand forfeitOppHand
      Suit.S = (33, 0) ∧
    (simulateTrickTaking forfeitBidderHand forfeitPartnerHand forfeitOppHand forfeitOppHand
        Suit.S).2 ≠
      evaluate forfeitOppHand + evaluate forfeitOppHand +
        (pteTrickLoop Suit.S
          [forfeitBidderHand, forfeitPartnerHand, forfeitOppHand, forfeitOppHand]).2 := by
  decide

/-- C7 (amended).  In `PinochleBiddingEnv.simulate_round` each partnership's
round total is unconditionally its two final hands' meld plus its captured
trick points (one point per captured King, Ten or Ace plus the 12th-trick
bonus, accumulated by the trick loop), and the trick-phase reward takes the
contract-success branch exactly when the contract team's total meets or
exceeds the winning bid; in `PinochleEnv.simulate_trick_taking`, however, the
total equals meld plus trick points only for a team with at least one trick
point — a team with none forfeits its meld and scores 0. -/
theorem c7_round_total_amended :
    (∀ (hands : List (List Card)) (wp : Nat) (trump : Suit),
      (simulateRound hands wp trump).1 =
        evaluate (hands.getD 0 []) + evaluate (hands.getD 2 []) +
          (simulateRound hands wp trump).2.2.1 ∧
      (simulateRound hands wp trump).2.1 =
        evaluate (hands.getD 1 []) + evaluate (hands.getD 3 []) +
          (simulateRound hands wp trump).2.2.2) ∧
    (∀ wb mlTotal mlTp oppTp : Nat, wb ≤ mlTotal →
      trickMainReward true wb mlTotal mlTp oppTp =
        ((mlTp : Int) - (oppTp : Int)) + (wb : Int)) ∧
    (∀ wb mlTotal mlTp oppTp : Nat, mlTotal < wb →
      trickMainReward true wb mlTotal mlTp oppTp = -(wb : Int)) ∧
    (∀ (b p o1 o2 : List Card) (trump : Suit),
      0 < (pteTrickLoop trump [b, p, o1, o2]).1 →
      0 < (pteTrickLoop trump [b, p, o1, o2]).2 →
      simulateTrickTaking b p o1 o2 trump =
        (evaluate b + evaluate p + (pteTrickLoop trump [b, p, o1, o2]).1,
         evaluate o1 + evaluate o2 + (pteTrickLoop trump [b, p, o1, o2]).2)) := by
  exact ⟨fun hands wp trump => ⟨simulateRound_fst hands wp trump,
      simulateRound_snd hands wp trump⟩,
    fun wb mlTotal mlTp oppTp h => trickMainReward_met wb mlTotal mlTp oppTp h,
    fun wb mlTotal mlTp oppTp h => trickMainReward_missed wb mlTotal mlTp oppTp h,
    fun b p o1 o2 trump h1 h2 => simulateTrickTaking_pos b p o1 o2 trump h1 h2⟩

/-- C7 (witness for the amended theorem at concrete rounds). -/
theorem c7_round_total_amended_witness :
    ((20 : Nat) ≤ 25 ∧ trickMainReward true 20 25 13 12 = ((13 : Int) - (12 : Int)) + 20) ∧
    (0 < (pteTrickLoop Suit.S
        [forfeitBidderHand, forfeitOppHand, forfeitPartnerHand, forfeitOppHand]).1 ∧
     0 < (pteTrickLoop Suit.S
        [forfeitBidderHand, forfeitOppHand, forfeitPartnerHand, forfeitOppHand]).2 ∧
     simulateTrickTaking forfeitBidderHand forfeitOppHand forfeitPartnerHand forfeitOppHand
        Suit.S =
      (evaluate forfeitBidderHand + evaluate forfeitOppHand +
        (pteTrickLoop Suit.S
          [forfeitBidderHand, forfeitOppHand, forfeitPartnerHand, forfeitOppHand]).1,
       evaluate forfeitPartnerHand + evaluate forfeitOppHand +
        (pteTrickLoop Suit.S
          [forfeitBidderHand, forfeitOppHand, forfeitPartnerHand, forfeitOppHand]).2)) :=
  ⟨⟨by decide, c7_round_total_amended.2.1 20 25 13 12 (by decide)⟩,
   by decide,
   by decide,
   c7_round_total_amended.2.2.2 forfeitBidderHand forfeitOppHand forfeitPartnerHand
     forfeitOppHand Suit.S (by decide) (by decide)⟩

/-- A mid-playout state (trick 10, spades trump, a heart led by seat 0):
seat 1 is void in hearts and holds the trump `9S` together with the non-trump
`9C`. -/
def voidSeatState : PlayState :=
  ⟨[[cKC], [c9S, c9C], [cQC, cQD], [cJC, cJD]], 0, [(0, c9H)], 10, Suit.S⟩

/-- C8 (counterexample).  The playout's legal-move set is not the section-4.5
one: a seat void in the led suit that holds a trump is *not* restricted to
its trumps by `_get_legal_moves` — it may play any card of its hand.  Here
the code offers both `9S` (trump) and `9C` (neither led suit nor trump),
while the specified legal set is exactly the trump `9S`. -/
theorem c8_legal_moves_counterexample :
    getLegalMoves voidSeatState 1 = [c9S, c9C] ∧
    legalMovesSpec voidSeatState 1 = [c9S] ∧
    getLegalMoves voidSeatState 1 ≠ legalMovesSpec voidSeatState 1 ∧
    c9C ∈ getLegalMoves voidSeatState 1 ∧
    c9C.suit ≠ voidSeatState.trump ∧
    c9C.suit ≠ Suit.H := by decide

theorem playout_foldl_sum (f : Nat → Int) :
    ∀ (xs : List Nat) (acc : Int), xs.foldl (fun t i => t + f i) acc = acc + (xs.map f).sum := by
  intro xs
  induction xs with
  | nil => intro acc; simp
  | cons x xs ih =>
    intro acc
    simp only [List.foldl_cons, List.map_cons, List.sum_cons, ih]
    omega

/-- C8 (amended).  `mcts_optimal_value` returns the sum of the
`iterations`-many independent playout values divided by `iterations` (the
sample mean under Python 3 true division), and every move a playout draws is
a member of the legal-move list computed by `_get_legal_moves` — which
requires following suit with the (unconditional) forced overtake but places
no restriction at all on a seat void in the led suit. -/
theorem c8_estimator_amended :
    (∀ (st : PlayState) (iterations : Nat) (rngs : Nat → Nat → Nat),
      mctsOptimalValue st iterations rngs =
        ((((List.range iterations).map (fun i => playoutValue st (rngs i))).sum : Int) : ℚ) /
          (iterations : ℚ)) ∧
    (∀ (l : List Card) (r : Nat) (c : Card), pyChoice l r = some c → c ∈ l) := by
  constructor
  · intro st iterations rngs
    unfold mctsOptimalValue
    rw [playout_foldl_sum (fun i => playoutValue st (rngs i)) (List.range iterations) 0,
      zero_add]
  · intro l r c h
    unfold pyChoice at h
    split_ifs at h with hl
    injection h with h1
    have hlen : 0 < l.length := List.length_pos.mpr hl
    have hm : r % l.length < l.length := Nat.mod_lt _ hlen
    rw [← h1, List.getD_eq_getElem l default hm]
    exact List.getElem_mem hm

/-- C8 (witness for the amended theorem): a concrete draw from the
counterexample state's legal moves lies in the legal-move list. -/
theorem c8_estimator_amended_witness :
    pyChoice (getLegalMoves voidSeatState 1) 0 = some c9S ∧
    c9S ∈ getLegalMoves voidSeatState 1 :=
  ⟨by decide,
   c8_estimator_amended.2 (getLegalMoves voidSeatState 1) 0 c9S (by decide)⟩

/-- C1.  Card conservation.  After a deal of any shuffled deck (any
permutation of the configured 48-card deck, in which each distinct card
occurs exactly twice), `Deck.deal(4)` produces exactly four hands of 12 cards
whose multiset union is the full deck; and the passing-phase exchange — the
partner passes the 3 cards at sorted positions `i < j < k` and the bidder
returns its 3 lowest-by-rank cards — leaves both hands at size 12 with the
multiset union of the two hands unchanged. -/
theorem c1_card_conservation (cards bidder partner : List Card) (i j k : Nat)
    (hshuffle : cards.Perm fullDeck)
    (hb : bidder.length = 12) (hp : partner.length = 12)
    (hij : i < j) (hjk : j < k) (hk : k < 12) :
    (deal cards 4).length = 4 ∧
    (∀ h ∈ deal cards 4, h.length = 12) ∧
    ((deal cards 4).map (fun h => Multiset.ofList h)).sum = (fullDeck : Multiset Card) ∧
    (∀ c : Card, fullDeck.count c = 2) ∧
    (passingExchange bidder partner i j k).1.length = 12 ∧
    (passingExchange bidder partner i j k).2.length = 12 ∧
    ((passingExchange bidder partner i j k).1 : Multiset Card) +
      ((passingExchange bidder partner i j k).2 : Multiset Card) =
      (bidder : Multiset Card) + (partner : Multiset Card) := by
  have hlen48 : cards.length = 48 := by
    rw [hshuffle.length_eq]
    decide
  have hex := passingExchange_spec bidder partner i j k hb hp hij hjk hk
  refine ⟨?_, ?_, ?_, by decide, hex.1, hex.2.1, hex.2.2⟩
  · simp [deal]
  · intro h hmem
    unfold deal at hmem
    obtain ⟨jj, hjj, rfl⟩ := List.mem_map.mp hmem
    rw [length_pick, hlen48]
    have hj4 : jj < 4 := List.mem_range.mp hjj
    interval_cases jj <;> decide
  · unfold deal
    rw [List.map_map]
    exact (pick_union cards 4 (by omega)).trans (Multiset.coe_eq_coe.mpr hshuffle)

/-- C1 (witness): the unshuffled deck itself and the exchange on its first
two 12-card hands with the combination `(0, 1, 2)`. -/
theorem c1_card_conservation_witness :
    (fullDeck.Perm fullDeck ∧ (fullDeck.take 12).length = 12 ∧
      ((fullDeck.drop 12).take 12).length = 12 ∧
      (0 : Nat) < 1 ∧ (1 : Nat) < 2 ∧ (2 : Nat) < 12) ∧
    ((deal fullDeck 4).length = 4 ∧
     (∀ h ∈ deal fullDeck 4, h.length = 12) ∧
     ((deal fullDeck 4).map (fun h => Multiset.ofList h)).sum = (fullDeck : Multiset Card) ∧
     (∀ c : Card, fullDeck.count c = 2) ∧
     (passingExchange (fullDeck.take 12) ((fullDeck.drop 12).take 12) 0 1 2).1.length = 12 ∧
     (passingExchange (fullDeck.take 12) ((fullDeck.drop 12).take 12) 0 1 2).2.length = 12 ∧
     ((passingExchange (fullDeck.take 12) ((fullDeck.drop 12).take 12) 0 1 2).1 :
        Multiset Card) +
       ((passingExchange (fullDeck.take 12) ((fullDeck.drop 12).take 12) 0 1 2).2 :
        Multiset Card) =
       ((fullDeck.take 12 : List Card) : Multiset Card) +
         (((fullDeck.drop 12).take 12 : List Card) : Multiset Card)) :=
  ⟨⟨List.Perm.refl _, by decide, by decide, by decide, by decide, by decide⟩,
   c1_card_conservation fullDeck (fullDeck.take 12) ((fullDeck.drop 12).take 12) 0 1 2
     (List.Perm.refl _) (by decide) (by decide) (by decide) (by decide) (by decide)⟩
